import Mathlib

/-
Verification development for the eparser EPUB library.

Shallow embedding of the container/package parsing pipeline, the
namespace/property resolution layer, and the resource-store backends,
translated from the Rust sources (src/oebps.rs, src/book.rs,
src/package/{manifest,metadata,prefix}.rs, src/file/{local,remote,remote_epub}.rs).

External crates are modelled at their interface:
- the url crate's Url is a structure with scheme / path segments / query /
  fragment, with join("") (empty relative reference) clearing the fragment;
- minidom XML documents are element trees (name, attributes, children);
- chrono's RFC3339 parsing and the missing newer package/property.rs
  (qualified-name resolver) are modelled from the spec, as marked on the
  corresponding definitions;
- network fetches (reqwest) are an oracle argument, and each remote get
  additionally reports how many HTTP requests it issued.
-/

deriving instance DecidableEq for Except

/-- Content bytes (Vec<u8>) are modelled as lists of naturals. -/
abbrev Bytes := List Nat

/-- Split a character list at the first occurrence of c (none when c is
absent); the separator is dropped. This models Rust's splitn(2, c). -/
def breakAtFirst (c : Char) : List Char → Option (List Char × List Char)
  | [] => none
  | x :: xs =>
    if x = c then some ([], xs)
    else (breakAtFirst c xs).map (fun p => (x :: p.1, p.2))

/-- Split a character list on every occurrence of c (str::split semantics:
the result is never empty, and empty pieces are kept). -/
def splitOnChar (c : Char) : List Char → List (List Char)
  | [] => [[]]
  | x :: xs =>
    match splitOnChar c xs with
    | [] => [[]]
    | y :: ys => if x = c then [] :: y :: ys else (x :: y) :: ys

/-- Split a string on a separator character. -/
def splitStr (c : Char) (s : String) : List String :=
  (splitOnChar c s.toList).map (fun l => String.mk l)

/-- Model of str::trim: drop leading and trailing whitespace. -/
def trimStr (s : String) : String :=
  String.mk (((s.toList.dropWhile Char.isWhitespace).reverse.dropWhile
    Char.isWhitespace).reverse)

/-- Helper mirroring Rust's Result::is_ok on the Except type. -/
def exceptIsOk {ε α : Type} : Except ε α → Bool
  | .ok _ => true
  | .error _ => false

/-- Association-list lookup, modelling HashMap/BTreeMap lookup (the maps in
the source are only ever queried by key equality). Insertions in the
embedding cons to the front, so the first hit is the most recent insertion,
matching the overwrite semantics of the Rust maps. -/
def assocLookup {α β : Type} [DecidableEq α] (k : α) : List (α × β) → Option β
  | [] => none
  | (a, b) :: rest => if a = k then some b else assocLookup k rest

/-- Replace the value stored under a key (BTreeMap insert on a present key). -/
def assocUpdate {α β : Type} [DecidableEq α] (k : α) (v : β) : List (α × β) → List (α × β)
  | [] => []
  | (a, b) :: rest => if a = k then (a, v) :: rest else (a, b) :: assocUpdate k v rest

/-- Fail-fast map over a list, modelling iterator map + collect::<Result<Vec,_>>. -/
def mapExcept {α β ε : Type} (f : α → Except ε β) : List α → Except ε (List β)
  | [] => .ok []
  | a :: rest =>
    match f a with
    | .error e => .error e
    | .ok b =>
      match mapExcept f rest with
      | .error e => .error e
      | .ok bs => .ok (b :: bs)

/-- Shallow model of url::Url as used by the code. `segments = some l` is a
hierarchical URL whose path_segments() is l; `segments = none` is a
cannot-be-a-base URL (path_segments() returns None). Percent-encoding and
dot-segment normalization are not exercised by the code paths under
verification and are not modelled. -/
structure Url where
  scheme : String
  segments : Option (List String)
  query : Option String
  fragment : Option String
deriving DecidableEq

/-- Model of url.join("") on a hierarchical base: the empty relative
reference keeps scheme, path and query and drops the fragment. -/
def Url.joinEmpty (u : Url) : Url :=
  { scheme := u.scheme, segments := u.segments, query := u.query, fragment := none }

/-- Replace the fragment component of a URL. -/
def Url.setFrag (u : Url) (f : Option String) : Url :=
  { scheme := u.scheme, segments := u.segments, query := u.query, fragment := f }

/-- Model of Url::join with a plain relative path reference (no leading
slash, no query/fragment, no dot segments), the only form the book layer
joins: drop the base's last segment and append the reference's segments. -/
def Url.joinRel (base : Url) (rel : String) : Option Url :=
  match base.segments with
  | none => none
  | some segs => some
      { scheme := base.scheme
        segments := some (segs.dropLast ++ splitStr '/' rel)
        query := none
        fragment := none }

/-- LocalFiles from src/file/local.rs: the eager archive-backed / directory-backed
store, a map from URL to bytes plus a root URL. -/
structure LocalFiles where
  files : List (Url × Bytes)
  root_url : Url
deriving DecidableEq

/-- LocalFiles::get: if the URL has no path segments it is looked up raw,
otherwise the fragment is removed via join("") before the lookup. -/
def LocalFiles.get (fs : LocalFiles) (url : Url) : Option Bytes :=
  match url.segments with
  | none => assocLookup url fs.files
  | some _ => assocLookup url.joinEmpty fs.files

/-- LazyFile from src/file/local.rs. A NotLoaded entry carries the bytes the
deferred read would produce (the Read handle is modelled by its contents). -/
inductive LazyFile where
  | NotLoaded : Bytes → LazyFile
  | Loaded : Bytes → LazyFile
deriving DecidableEq

/-- LazyLocalFiles from src/file/local.rs: the lazy directory-backed store. -/
structure LazyLocalFiles where
  root_url : Url
  files : List (Url × LazyFile)
deriving DecidableEq

/-- LazyLocalFiles::get: same fragment handling as LocalFiles::get; on first
access a NotLoaded entry transitions to Loaded, caching the bytes. Returns
the bytes and the updated store. -/
def LazyLocalFiles.get (fs : LazyLocalFiles) (url : Url) : Option Bytes × LazyLocalFiles :=
  let key : Url :=
    match url.segments with
    | none => url
    | some _ => url.joinEmpty
  match assocLookup key fs.files with
  | none => (none, fs)
  | some (.Loaded b) => (some b, fs)
  | some (.NotLoaded b) =>
      (some b, { root_url := fs.root_url, files := assocUpdate key (.Loaded b) fs.files })

/-- RemoteFiles from src/file/remote.rs: per-URL cache over an HTTP client.
The network is an oracle mapping each URL to the bytes a GET would return
(none = transport or body failure). -/
structure RemoteFiles where
  url : Url
  cache : List (Url × Bytes)
deriving DecidableEq

/-- RemoteFiles::get: on cache miss issue a GET for the URL verbatim and
insert the body on success; then answer from the cache. The third component
counts HTTP requests issued by this call. -/
def RemoteFiles.get (net : Url → Option Bytes) (s : RemoteFiles) (url : Url) :
    Option Bytes × RemoteFiles × Nat :=
  if (assocLookup url s.cache).isSome then
    (assocLookup url s.cache, s, 0)
  else
    match net url with
    | some b =>
        let s1 : RemoteFiles := { url := s.url, cache := (url, b) :: s.cache }
        (assocLookup url s1.cache, s1, 1)
    | none => (assocLookup url s.cache, s, 1)

/-- RemoteEpub from src/file/remote_epub.rs: a one-shot HTTP fetch of a whole
ZIP. The client/URL handling is abstracted into the zip oracle given to get. -/
structure RemoteEpubState where
  has_fetched_zip : Bool
  fetch_zip_error : Bool
  files : List (Url × Bytes)
deriving DecidableEq

/-- State of a freshly constructed RemoteEpub (read_from_epub_url). -/
def RemoteEpubState.initial : RemoteEpubState :=
  { has_fetched_zip := false, fetch_zip_error := false, files := [] }

/-- RemoteEpub::get: if the zip has not been fetched, a prior recorded fetch
failure short-circuits to none; otherwise one fetch is attempted (the oracle
`zipFetch` is the extracted entry list on success). After a successful fetch
entries are served from the files map with the URL looked up verbatim. The
third component counts HTTP requests issued by this call. -/
def RemoteEpub.get (zipFetch : Option (List (Url × Bytes))) (s : RemoteEpubState)
    (url : Url) : Option Bytes × RemoteEpubState × Nat :=
  if s.has_fetched_zip then
    (assocLookup url s.files, s, 0)
  else if s.fetch_zip_error then
    (none, s, 0)
  else
    match zipFetch with
    | none =>
        (none, { has_fetched_zip := false, fetch_zip_error := true, files := s.files }, 1)
    | some entries =>
        let s1 : RemoteEpubState :=
          { has_fetched_zip := true, fetch_zip_error := false
            files := entries ++ s.files }
        (assocLookup url s1.files, s1, 1)

/-- A resolved qualified name: the (namespace URI, local name) pair produced
by the resolver and used as the equality key throughout metadata and
manifest processing (package/property.rs). -/
structure WithNamespace where
  ns : String
  reference : String
deriving DecidableEq

/-- A resolved property value is the same (namespace, local) pair. -/
abbrev Property := WithNamespace

/-- Modelled from the spec: Property::from_prefix of the newer
package/property.rs (absent from src/) pairs a reserved prefix's namespace
URI with a local name. -/
def Property.from_prefix (uri : String) (reference : String) : Property :=
  { ns := uri, reference := reference }

/-- Properties::contains compares resolved pairs (Vec<Property> contains). -/
def Properties.containsProp (ps : List Property) (p : Property) : Bool :=
  ps.any (fun q => decide (q = p))

/-- A prefix-to-namespace map (Prefixes in src/package/prefix.rs); the key
none is the default (unprefixed) namespace. BTreeMap is modelled as an
association list queried by key equality. -/
abbrev Pfxs := List (Option String × String)

/-- The namespace URI bound to the reserved prefix dc. -/
def dcUri : String := "http://purl.org/dc/elements/1.1/"

/-- The namespace URI bound to the reserved prefix dcterms. -/
def dctermsUri : String := "http://purl.org/dc/terms/"

/-- The OPF default namespace URI (the None-keyed entry of prefix.rs). -/
def opfUri : String := "http://www.idpf.org/2007/opf"

/-- RESERVED from src/package/prefix.rs: the eleven reserved prefixes. -/
def reservedPfxs : Pfxs :=
  [ (some "dc", dcUri)
  , (some "dcterms", dctermsUri)
  , (some "a11y", "http://www.idpf.org/epub/vocab/package/a11y/#")
  , (some "marc", "http://id.loc.gov/vocabulary/")
  , (some "media", "http://www.idpf.org/epub/vocab/overlays/#")
  , (some "onix", "http://www.editeur.org/ONIX/book/codelists/current.html#")
  , (some "rendition", "http://www.idpf.org/vocab/rendition/#")
  , (some "schema", "http://schema.org/")
  , (some "xsd", "http://www.w3.org/2001/XMLSchema#")
  , (some "msv", "http://www.idpf.org/epub/vocab/structure/magazine/#")
  , (some "prism", "http://www.prismstandard.org/specifications/3.0/PRISM_CV_Spec_3.0.htm#")
  ]

/-- Scan a list of scopes front-first for the first one binding the key. -/
def scanScopes (pre : Option String) : List Pfxs → Option String
  | [] => none
  | m :: rest =>
    match assocLookup pre m with
    | some uri => some uri
    | none => scanScopes pre rest

/-- PrefixesStack::get from src/package/prefix.rs: scopes are searched from
the most recently pushed (end of the Vec) to the oldest. The stack is a list
with push appending at the end, so the reversed list is scanned. -/
def PfxStack.get (stack : List Pfxs) (pre : Option String) : Option String :=
  scanScopes pre stack.reverse

/-- Failure of qualified-name resolution: no active scope defines the
prefix (none is the default namespace). -/
inductive PropertyError where
  | NamespaceError : Option String → PropertyError
deriving DecidableEq

/-- Split a token at its first colon, Rust splitn(2, ':'). -/
def splitFirstColon (s : String) : Option (String × String) :=
  (breakAtFirst ':' s.toList).map (fun p => (String.mk p.1, String.mk p.2))

/-- Modelled from the spec: Property::from_str of the newer
package/property.rs (absent from src/; only its callers survive). A
`prefix:local` or bare token is split on the first colon only; the prefix
part (none for a bare token, also none for an empty prefix part) is resolved
through the scope stack, yielding a (namespace URI, local name) pair, or a
NamespaceError naming the prefix when no scope defines it. -/
def Property.from_str (s : String) (stack : List Pfxs) : Except PropertyError Property :=
  match splitFirstColon s with
  | none =>
    match PfxStack.get stack none with
    | some uri => .ok { ns := uri, reference := trimStr s }
    | none => .error (.NamespaceError none)
  | some (p, ref) =>
    let pr := trimStr p
    let key : Option String := if pr.isEmpty then none else some pr
    match PfxStack.get stack key with
    | some uri => .ok { ns := uri, reference := trimStr ref }
    | none => .error (.NamespaceError key)

/-- The nav property constant of src/package/manifest.rs:
Property::from_prefix(&OPF, "nav"). -/
def NAV : Property := Property.from_prefix opfUri "nav"

/-- Resource from src/package/manifest.rs. MediaType is a newtype over the
string and is modelled as the string itself. -/
structure Resource where
  id : String
  href : Url
  media_type : String
  fallback : Option String
  media_overlay : Option String
  properties : Option (List Property)
deriving DecidableEq

/-- ManifestCheckError from src/package/manifest.rs. -/
inductive ManifestCheckError where
  | DeduplicatedId : String → ManifestCheckError
  | DeduplicatedHref : Url → ManifestCheckError
  | NavResourceNotFound : ManifestCheckError
  | IdNotFound : String → ManifestCheckError
deriving DecidableEq

/-- Manifest from src/package/manifest.rs: the resource list plus the two
derived index maps (id to index, href to index) and the cached index of the
nav resource. -/
structure Manifest where
  id : Option String
  resources : List Resource
  id_to_resource : List (String × Nat)
  href_to_resource : List (Url × Nat)
  nav_resource : Nat
deriving DecidableEq

/-- The indexing loop of Manifest::new: enumerate the resources, inserting
id and href into their maps and failing on the first key already present. -/
def buildMaps : List Resource → Nat → List (String × Nat) → List (Url × Nat) →
    Except ManifestCheckError (List (String × Nat) × List (Url × Nat))
  | [], _, idm, hm => .ok (idm, hm)
  | r :: rest, i, idm, hm =>
    if (assocLookup r.id idm).isSome then
      .error (.DeduplicatedId r.id)
    else if (assocLookup r.href hm).isSome then
      .error (.DeduplicatedHref r.href)
    else
      buildMaps rest (i + 1) ((r.id, i) :: idm) ((r.href, i) :: hm)

/-- The fallback loop of Manifest::new: every present fallback id must be a
key of the id map, else IdNotFound. -/
def checkFallbacks (idm : List (String × Nat)) : List Resource → Except ManifestCheckError Unit
  | [] => .ok ()
  | r :: rest =>
    match r.fallback with
    | none => checkFallbacks idm rest
    | some f =>
      if (assocLookup f idm).isSome then checkFallbacks idm rest
      else .error (.IdNotFound f)

/-- The nav predicate of Manifest::new:
resource.properties.map(|p| p.contains(&NAV)).unwrap_or(false). -/
def hasNav (r : Resource) : Bool :=
  (r.properties.map (fun ps => Properties.containsProp ps NAV)).getD false

/-- Manifest::new from src/package/manifest.rs: build the id and href maps
(failing on duplicates), check every fallback id resolves, then locate the
first resource carrying the nav property (position), failing with
NavResourceNotFound when there is none. -/
def Manifest.new (id : Option String) (resources : List Resource) :
    Except ManifestCheckError Manifest :=
  match buildMaps resources 0 [] [] with
  | .error e => .error e
  | .ok (idm, hm) =>
    match checkFallbacks idm resources with
    | .error e => .error e
    | .ok _ =>
      match resources.findIdx? hasNav with
      | none => .error .NavResourceNotFound
      | some nav =>
        .ok { id := id, resources := resources, id_to_resource := idm
              href_to_resource := hm, nav_resource := nav }

/-- Manifest::get_resource_by_id: map lookup then index into the resource
list (the Rust indexing cannot go out of bounds for a constructed manifest;
it is modelled with the checked index). -/
def Manifest.get_resource_by_id (m : Manifest) (id : String) : Option Resource :=
  (assocLookup id m.id_to_resource).bind (fun i => m.resources.get? i)

/-- Manifest::get_resource_by_href, analogous to get_resource_by_id. -/
def Manifest.get_resource_by_href (m : Manifest) (href : Url) : Option Resource :=
  (assocLookup href m.href_to_resource).bind (fun i => m.resources.get? i)

/-- MetadataElement from src/package/metadata.rs: a Dublin-Core element with
its resolved qualified tag name. -/
structure MetadataElement where
  id : Option String
  lang : Option String
  dir : Option String
  tag_name : WithNamespace
deriving DecidableEq

/-- Meta from src/package/metadata.rs. Refines is a newtype over Url and is
modelled as the Url itself. -/
structure Meta where
  id : Option String
  lang : Option String
  dir : Option String
  property : Property
  refines : Option Url
  scheme : Option Property
  value : String
deriving DecidableEq

/-- Link from src/package/metadata.rs. -/
structure Link where
  id : Option String
  href : Url
  rel : List Property
  hreflang : Option String
  media_type : Option String
  property : Option Property
  refines : Option Url
  value : String
deriving DecidableEq

/-- MetadataCheckError from src/package/metadata.rs. The chrono parse error
payload of DateParseError is not inspected by any caller and is dropped. -/
inductive MetadataCheckError where
  | MissingElementError : String → MetadataCheckError
  | MissingLastModifiedError : String → MetadataCheckError
  | DateParseError : MetadataCheckError
deriving DecidableEq

/-- An RFC3339 timestamp, kept as its parsed components (the conversion to
UTC performed by chrono's to_utc is not inspected by any claim). -/
structure Rfc3339Timestamp where
  year : Nat
  month : Nat
  day : Nat
  hour : Nat
  minute : Nat
  second : Nat
  fracDigits : List Nat
  offsetMinutes : Int
deriving DecidableEq

/-- Take exactly n decimal digits from the front of a character list. -/
def takeDigits : Nat → List Char → Option (Nat × List Char)
  | 0, l => some (0, l)
  | n + 1, [] => (fun _ => none) n
  | n + 1, c :: l =>
    if c.isDigit then
      match takeDigits n l with
      | none => none
      | some (v, rest) => some ((c.toNat - 48) * 10 ^ n + v, rest)
    else none

/-- Consume one expected character. -/
def expectChar (c : Char) : List Char → Option (List Char)
  | [] => none
  | x :: l => if x = c then some l else none

/-- Take a possibly-empty run of leading digits. -/
def takeDigitRun : List Char → List Nat × List Char
  | [] => ([], [])
  | c :: l =>
    if c.isDigit then
      let (ds, rest) := takeDigitRun l
      ((c.toNat - 48) :: ds, rest)
    else ([], c :: l)

/-- Parse the trailing offset: Z / z for UTC or a signed HH:MM offset, which
must consume the rest of the input. -/
def parseOffset : List Char → Option Int
  | ['Z'] => some 0
  | ['z'] => some 0
  | c :: l =>
    if c = '+' ∨ c = '-' then
      match takeDigits 2 l with
      | none => none
      | some (hh, l1) =>
        match expectChar ':' l1 with
        | none => none
        | some l2 =>
          match takeDigits 2 l2 with
          | none => none
          | some (mm, l3) =>
            if l3 = [] ∧ hh < 24 ∧ mm < 60 then
              some (if c = '-' then -(hh * 60 + mm : Int) else (hh * 60 + mm : Int))
            else none
    else none
  | [] => none

/-- Days in a month of a given year, with the Gregorian leap rule. -/
def daysInMonth (year month : Nat) : Nat :=
  if month = 2 then
    if year % 4 = 0 ∧ (year % 100 ≠ 0 ∨ year % 400 = 0) then 29 else 28
  else if month = 4 ∨ month = 6 ∨ month = 9 ∨ month = 11 then 30
  else 31

/-- Modelled from the spec: chrono's DateTime::parse_from_rfc3339 (the chrono
crate is external to this repository). Accepts
YYYY-MM-DDTHH:MM:SS(.digits)?(Z|+HH:MM|-HH:MM) with calendar-valid date
fields and an explicit offset; anything else is a parse failure. -/
def parse_from_rfc3339 (s : String) : Option Rfc3339Timestamp :=
  match takeDigits 4 s.toList with
  | none => none
  | some (year, r1) =>
    match expectChar '-' r1 with
    | none => none
    | some r2 =>
      match takeDigits 2 r2 with
      | none => none
      | some (month, r3) =>
        match expectChar '-' r3 with
        | none => none
        | some r4 =>
          match takeDigits 2 r4 with
          | none => none
          | some (day, r5) =>
            match expectChar 'T' r5 <|> expectChar 't' r5 with
            | none => none
            | some r6 =>
              match takeDigits 2 r6 with
              | none => none
              | some (hour, r7) =>
                match expectChar ':' r7 with
                | none => none
                | some r8 =>
                  match takeDigits 2 r8 with
                  | none => none
                  | some (minute, r9) =>
                    match expectChar ':' r9 with
                    | none => none
                    | some r10 =>
                      match takeDigits 2 r10 with
                      | none => none
                      | some (second, r11) =>
                        let fr :=
                          match r11 with
                          | '.' :: l =>
                            match takeDigitRun l with
                            | ([], _) => none
                            | (ds, rest) => some (ds, rest)
                          | l => some ([], l)
                        match fr with
                        | none => none
                        | some (fracDigits, r12) =>
                          match parseOffset r12 with
                          | none => none
                          | some off =>
                            if 1 ≤ month ∧ month ≤ 12 ∧ 1 ≤ day ∧
                                day ≤ daysInMonth year month ∧
                                hour < 24 ∧ minute < 60 ∧ second < 61 then
                              some { year := year, month := month, day := day
                                     hour := hour, minute := minute, second := second
                                     fracDigits := fracDigits, offsetMinutes := off }
                            else none

/-- The dcterms:modified property constant of src/package/metadata.rs. -/
def DCTERMS_MODIFIED : Property := Property.from_prefix dctermsUri "modified"

/-- The dc:title qualified tag name constant of src/package/metadata.rs. -/
def DC_TITLE : WithNamespace := { ns := dcUri, reference := "title" }

/-- The dc:language qualified tag name constant of src/package/metadata.rs. -/
def DC_LANGUAGE : WithNamespace := { ns := dcUri, reference := "language" }

/-- The dc:identifier qualified tag name constant of src/package/metadata.rs. -/
def DC_IDENTIFIER : WithNamespace := { ns := dcUri, reference := "identifier" }

/-- Push an element onto the entry bound to its tag name (map-entry update:
the single binding for the key gains the element). -/
def updateEntry : List (WithNamespace × List MetadataElement) → MetadataElement →
    List (WithNamespace × List MetadataElement)
  | [], _ => []
  | (k, v) :: rest, e =>
    if k = e.tag_name then (k, v ++ [e]) :: rest else (k, v) :: updateEntry rest e

/-- One step of the grouping loop of Metadata::new: push the element onto
the entry for its qualified tag name, creating the entry if absent
(BTreeMap entry().or_insert_with(Vec::new).push()). -/
def groupInsert (m : List (WithNamespace × List MetadataElement)) (e : MetadataElement) :
    List (WithNamespace × List MetadataElement) :=
  if (assocLookup e.tag_name m).isSome then updateEntry m e
  else m ++ [(e.tag_name, [e])]

/-- The grouped element map of Metadata::new. -/
def groupElems (elems : List MetadataElement) : List (WithNamespace × List MetadataElement) :=
  elems.foldl groupInsert []

/-- The check closure of Metadata::new: the entry for the tag name must
exist and be non-empty, else MissingElementError with the local name. -/
def checkElem (m : List (WithNamespace × List MetadataElement)) (tag : WithNamespace) :
    Except MetadataCheckError Unit :=
  match assocLookup tag m with
  | none => .error (.MissingElementError tag.reference)
  | some l => if l.isEmpty then .error (.MissingElementError tag.reference) else .ok ()

/-- Metadata from src/package/metadata.rs. -/
structure Metadata where
  elems : List (WithNamespace × List MetadataElement)
  metas : List Meta
  links : List Link
  last_modified : Rfc3339Timestamp
deriving DecidableEq

/-- Metadata::new from src/package/metadata.rs: group the elements by
qualified tag name; require a dc:title, dc:language and dc:identifier entry;
find the first meta whose property equals dcterms:modified (failing with
MissingLastModifiedError when there is none) and parse its value as RFC3339
(failing with DateParseError when that fails). -/
def Metadata.new (elems : List MetadataElement) (metas : List Meta) (links : List Link) :
    Except MetadataCheckError Metadata :=
  match checkElem (groupElems elems) DC_TITLE with
  | .error e => .error e
  | .ok _ =>
    match checkElem (groupElems elems) DC_LANGUAGE with
    | .error e => .error e
    | .ok _ =>
      match checkElem (groupElems elems) DC_IDENTIFIER with
      | .error e => .error e
      | .ok _ =>
        match metas.find? (fun meta => decide (meta.property = DCTERMS_MODIFIED)) with
        | none => .error (.MissingLastModifiedError "dcterms:modified")
        | some lm =>
          match parse_from_rfc3339 lm.value with
          | none => .error .DateParseError
          | some ts =>
            .ok { elems := groupElems elems, metas := metas, links := links
                  last_modified := ts }

/-- A minidom element tree, as consumed by the container parser: tag name,
attributes and child elements. -/
structure Element where
  name : String
  attrs : List (String × String)
  children : List Element

/-- Element::attr: look an attribute up by name. -/
def Element.attr (e : Element) (n : String) : Option String :=
  assocLookup n e.attrs

/-- Rootfile from src/oebps.rs. -/
structure Rootfile where
  full_path : Url
  media_type : String
deriving DecidableEq

/-- Container from src/oebps.rs. -/
structure Container where
  rootfiles : List Rootfile
deriving DecidableEq

/-- ContainerError from src/oebps.rs (error payloads that no claim inspects
are dropped). -/
inductive ContainerError where
  | MissingRootfiles : ContainerError
  | MissingFullPath : ContainerError
  | MissingMediaType : ContainerError
  | InvalidMediaType : String → ContainerError
  | InvalidFullPath : ContainerError
  | ParseError : ContainerError
deriving DecidableEq

/-- The fixed OEBPS package media type of src/package/media_type.rs. -/
def OEBPS : String := "application/oebps-package+xml"

/-- Model of Url::parse applied to "epub:/" ++ full_path as in
parse_container: an epub-scheme URL whose path is the given string, split
into fragment (after the first '#'), query (after the first '?' of the
remainder) and slash-separated path segments. The url crate's exotic
failure cases (forbidden code points) are outside the inputs modelled, so
the model always succeeds; the Option mirrors the Result signature. -/
def epubUrlOfFullPath (s : String) : Option Url :=
  let bf : List Char × Option String :=
    match breakAtFirst '#' s.toList with
    | none => (s.toList, none)
    | some (b, f) => (b, some (String.mk f))
  let pq : List Char × Option String :=
    match breakAtFirst '?' bf.1 with
    | none => (bf.1, none)
    | some (p, qq) => (p, some (String.mk qq))
  some { scheme := "epub"
         segments := some ((splitOnChar '/' pq.1).map (fun l => String.mk l))
         query := pq.2
         fragment := bf.2 }

/-- The per-rootfile closure of parse_container: require the full-path and
media-type attributes, build the epub URL, and require the OEBPS package
media type, failing with InvalidMediaType naming any other value. -/
def parseRootfileElem (n : Element) : Except ContainerError Rootfile :=
  match n.attr "full-path" with
  | none => .error .MissingFullPath
  | some fp =>
    match n.attr "media-type" with
    | none => .error .MissingMediaType
    | some mt =>
      match epubUrlOfFullPath fp with
      | none => .error .InvalidFullPath
      | some u =>
        if mt = OEBPS then .ok { full_path := u, media_type := mt }
        else .error (.InvalidMediaType mt)

/-- parse_container from src/oebps.rs, starting from the parsed root
element: find the first child named rootfiles (else MissingRootfiles), keep
its children named rootfile, and convert each in document order,
fail-fast. -/
def parse_container (root : Element) : Except ContainerError Container :=
  match root.children.find? (fun n => decide (n.name = "rootfiles")) with
  | none => .error .MissingRootfiles
  | some rfs =>
    match mapExcept parseRootfileElem
        (rfs.children.filter (fun n => decide (n.name = "rootfile"))) with
    | .error e => .error e
    | .ok l => .ok { rootfiles := l }

/-- ParseBookError from src/book.rs (payloads no claim inspects dropped). -/
inductive ParseBookError where
  | MissingContainer : ParseBookError
  | MissingPackage : String → ParseBookError
  | UrlParseError : ParseBookError
  | ParseContainerError : ContainerError → ParseBookError
  | Utf8Error : ParseBookError
  | ParsePackageError : ParseBookError
deriving DecidableEq

/-- The container phase of parse_book from src/book.rs, over an eager local
store whose values are the parsed XML documents (the UTF-8 decode and
minidom parse of the fetched bytes are modelled by storing the parsed
tree): join META-INF/container.xml against the store root, fetch it (else
MissingContainer), parse the container, and return the first rootfile's
full path — the base_url that parse_book then reads as
container.rootfiles[0]. The Rust code indexes position 0 unconditionally
and panics when the rootfile list is empty; the model returns none there. -/
def parseBookBaseUrl (files : List (Url × Element)) (rootUrl : Url) :
    Except ParseBookError (Option Url) :=
  match rootUrl.joinRel "META-INF/container.xml" with
  | none => .error .UrlParseError
  | some cu =>
    match assocLookup cu files with
    | none => .error .MissingContainer
    | some doc =>
      match parse_container doc with
      | .error e => .error (.ParseContainerError e)
      | .ok c => .ok ((c.rootfiles.head?).map (fun rf => rf.full_path))

/-- Success of exceptIsOk is existence of an ok value. -/
theorem exceptIsOk_eq_true_iff {ε α : Type} (x : Except ε α) :
    exceptIsOk x = true ↔ ∃ a, x = .ok a := by
  cases x <;> simp [exceptIsOk]

/-- A successful indexing pass preserves every binding already present in
the accumulator maps. -/
theorem buildMaps_preserves (rs : List Resource) (i : Nat)
    (idm : List (String × Nat)) (hm : List (Url × Nat))
    (idm' : List (String × Nat)) (hm' : List (Url × Nat))
    (h : buildMaps rs i idm hm = .ok (idm', hm')) :
    (∀ key v, assocLookup key idm = some v → assocLookup key idm' = some v) ∧
    (∀ key v, assocLookup key hm = some v → assocLookup key hm' = some v) := by
  induction rs generalizing i idm hm with
  | nil =>
    simp only [buildMaps, Except.ok.injEq, Prod.mk.injEq] at h
    obtain ⟨h1, h2⟩ := h
    subst h1; subst h2
    exact ⟨fun _ _ hk => hk, fun _ _ hk => hk⟩
  | cons r rest ih =>
    simp only [buildMaps] at h
    by_cases hid : (assocLookup r.id idm).isSome = true
    · simp [hid] at h
    · by_cases hh : (assocLookup r.href hm).isSome = true
      · simp [hid, hh] at h
      · simp only [hid, hh, if_false, Bool.false_eq_true] at h
        obtain ⟨p1, p2⟩ := ih (i + 1) ((r.id, i) :: idm) ((r.href, i) :: hm) h
        constructor
        · intro key v hk
          apply p1
          have hne : r.id ≠ key := by
            intro e
            rw [e, hk] at hid
            simp at hid
          simp [assocLookup, hne]
          exact hk
        · intro key v hk
          apply p2
          have hne : r.href ≠ key := by
            intro e
            rw [e, hk] at hh
            simp at hh
          simp [assocLookup, hne]
          exact hk

/-- After a successful indexing pass starting at offset i, the k-th listed
resource's id and href are bound to index i + k in the final maps. -/
theorem buildMaps_get (rs : List Resource) (i : Nat)
    (idm : List (String × Nat)) (hm : List (Url × Nat))
    (idm' : List (String × Nat)) (hm' : List (Url × Nat))
    (h : buildMaps rs i idm hm = .ok (idm', hm')) :
    ∀ k (hk : k < rs.length),
      assocLookup (rs.get ⟨k, hk⟩).id idm' = some (i + k) ∧
      assocLookup (rs.get ⟨k, hk⟩).href hm' = some (i + k) := by
  induction rs generalizing i idm hm with
  | nil => intro k hk; exact absurd hk (by simp)
  | cons r rest ih =>
    intro k hk
    simp only [buildMaps] at h
    by_cases hid : (assocLookup r.id idm).isSome = true
    · simp [hid] at h
    · by_cases hh : (assocLookup r.href hm).isSome = true
      · simp [hid, hh] at h
      · simp only [hid, hh, if_false, Bool.false_eq_true] at h
        obtain ⟨p1, p2⟩ := buildMaps_preserves rest (i + 1)
          ((r.id, i) :: idm) ((r.href, i) :: hm) idm' hm' h
        match k with
        | 0 =>
          constructor
          · have : assocLookup r.id ((r.id, i) :: idm) = some i := by simp [assocLookup]
            simpa using p1 r.id i this
          · have : assocLookup r.href ((r.href, i) :: hm) = some i := by simp [assocLookup]
            simpa using p2 r.href i this
        | k + 1 =>
          have hk' : k < rest.length := by simpa using Nat.lt_of_succ_lt_succ hk
          have := ih (i + 1) ((r.id, i) :: idm) ((r.href, i) :: hm) h k hk'
          have harith : i + 1 + k = i + (k + 1) := by omega
          simpa [List.get, harith] using this

/-- Every binding of the maps produced by a successful indexing pass either
was already in the accumulator or names a listed resource at its index. -/
theorem buildMaps_mem (rs : List Resource) (i : Nat)
    (idm : List (String × Nat)) (hm : List (Url × Nat))
    (idm' : List (String × Nat)) (hm' : List (Url × Nat))
    (h : buildMaps rs i idm hm = .ok (idm', hm')) :
    (∀ key v, assocLookup key idm' = some v →
      assocLookup key idm = some v ∨
      ∃ k, ∃ (hk : k < rs.length), v = i + k ∧ (rs.get ⟨k, hk⟩).id = key) ∧
    (∀ key v, assocLookup key hm' = some v →
      assocLookup key hm = some v ∨
      ∃ k, ∃ (hk : k < rs.length), v = i + k ∧ (rs.get ⟨k, hk⟩).href = key) := by
  induction rs generalizing i idm hm with
  | nil =>
    simp only [buildMaps, Except.ok.injEq, Prod.mk.injEq] at h
    obtain ⟨h1, h2⟩ := h
    subst h1; subst h2
    exact ⟨fun _ _ hk => Or.inl hk, fun _ _ hk => Or.inl hk⟩
  | cons r rest ih =>
    simp only [buildMaps] at h
    by_cases hid : (assocLookup r.id idm).isSome = true
    · simp [hid] at h
    · by_cases hh : (assocLookup r.href hm).isSome = true
      · simp [hid, hh] at h
      · simp only [hid, hh, if_false, Bool.false_eq_true] at h
        obtain ⟨p1, p2⟩ := ih (i + 1) ((r.id, i) :: idm) ((r.href, i) :: hm) h
        constructor
        · intro key v hk
          rcases p1 key v hk with hbase | ⟨k, hlt, hv, hkey⟩
          · by_cases he : r.id = key
            · subst he
              simp [assocLookup] at hbase
              subst hbase
              exact Or.inr ⟨0, by simp, by simp, by simp [List.get]⟩
            · simp [assocLookup, he] at hbase
              exact Or.inl hbase
          · refine Or.inr ⟨k + 1, by simpa using Nat.succ_lt_succ hlt, by omega, ?_⟩
            simpa [List.get] using hkey
        · intro key v hk
          rcases p2 key v hk with hbase | ⟨k, hlt, hv, hkey⟩
          · by_cases he : r.href = key
            · subst he
              simp [assocLookup] at hbase
              subst hbase
              exact Or.inr ⟨0, by simp, by simp, by simp [List.get]⟩
            · simp [assocLookup, he] at hbase
              exact Or.inl hbase
          · refine Or.inr ⟨k + 1, by simpa using Nat.succ_lt_succ hlt, by omega, ?_⟩
            simpa [List.get] using hkey

/-- A successful fallback pass means every present fallback id is a key of
the id map. -/
theorem checkFallbacks_lookup (idm : List (String × Nat)) (rs : List Resource)
    (h : checkFallbacks idm rs = .ok ()) :
    ∀ r ∈ rs, ∀ f, r.fallback = some f → (assocLookup f idm).isSome = true := by
  induction rs with
  | nil => intro r hr; exact absurd hr (by simp)
  | cons q rest ih =>
    intro r hr f hf
    simp only [checkFallbacks] at h
    cases hq : q.fallback with
    | none =>
      rw [hq] at h
      rcases List.mem_cons.mp hr with he | hrest
      · subst he; rw [hq] at hf; cases hf
      · exact ih h r hrest f hf
    | some f0 =>
      rw [hq] at h
      by_cases hl : (assocLookup f0 idm).isSome = true
      · simp only [hl, if_true] at h
        rcases List.mem_cons.mp hr with he | hrest
        · subst he
          rw [hq] at hf
          cases hf
          exact hl
        · exact ih h r hrest f hf
      · simp [hl] at h

/-- Characterization of a successful Manifest::new: the maps were built,
the fallback pass succeeded, a nav resource was found, and the manifest is
assembled from those pieces. -/
theorem manifest_new_ok (mid : Option String) (rs : List Resource) (m : Manifest)
    (h : Manifest.new mid rs = .ok m) :
    ∃ idm hm nav, buildMaps rs 0 [] [] = .ok (idm, hm) ∧
      checkFallbacks idm rs = .ok () ∧
      rs.findIdx? hasNav = some nav ∧
      m = { id := mid, resources := rs, id_to_resource := idm
            href_to_resource := hm, nav_resource := nav } := by
  unfold Manifest.new at h
  split at h
  next e hb => cases h
  next idm hm hb =>
    split at h
    next e hc => cases h
    next u hc =>
      cases u
      split at h
      next hn => cases h
      next nav hn =>
        cases h
        exact ⟨idm, hm, nav, hb, hc, hn, rfl⟩

/-- Concrete URL epub:/a.xhtml used by the concrete manifests below. -/
def urlA : Url :=
  { scheme := "epub", segments := some ["a.xhtml"], query := none, fragment := none }

/-- Concrete URL epub:/b.xhtml. -/
def urlB : Url :=
  { scheme := "epub", segments := some ["b.xhtml"], query := none, fragment := none }

/-- A resource with id a carrying the nav property. -/
def navResA : Resource :=
  { id := "a", href := urlA, media_type := "application/xhtml+xml", fallback := none
    media_overlay := none, properties := some [NAV] }

/-- A second resource with id b also carrying the nav property. -/
def navResB : Resource :=
  { id := "b", href := urlB, media_type := "application/xhtml+xml", fallback := none
    media_overlay := none, properties := some [NAV] }

/-- A resource carrying no properties at all (in particular not nav). -/
def noNavResA : Resource :=
  { id := "a", href := urlA, media_type := "application/xhtml+xml", fallback := none
    media_overlay := none, properties := none }

/-- A nav resource whose fallback names its own id. -/
def selfFallbackRes : Resource :=
  { id := "a", href := urlA, media_type := "application/xhtml+xml", fallback := some "a"
    media_overlay := none, properties := some [NAV] }

/-- C1 counterexample: a resource list with two nav-property resources does
not fail construction — Manifest::new only searches for the first position
carrying nav, so it succeeds, refuting the claim that two nav resources
fail. -/
theorem c1_two_nav_succeeds :
    exceptIsOk (Manifest.new none [navResA, navResB]) = true ∧
    hasNav navResA = true ∧ hasNav navResB = true := by
  decide

/-- C1 (amended): a successfully constructed Manifest contains at least one
resource carrying the nav property, and construction from a resource list
with zero nav-property resources fails. -/
theorem c1_nav_amended :
    (∀ (mid : Option String) (rs : List Resource) (m : Manifest),
      Manifest.new mid rs = .ok m → ∃ r ∈ rs, hasNav r = true) ∧
    (∀ (mid : Option String) (rs : List Resource),
      (∀ r ∈ rs, hasNav r = false) → exceptIsOk (Manifest.new mid rs) = false) := by
  constructor
  · intro mid rs m h
    obtain ⟨idm, hm, nav, _, _, hn, _⟩ := manifest_new_ok mid rs m h
    by_contra hno
    push_neg at hno
    have hall : ∀ r ∈ rs, hasNav r = false := by
      intro r hr
      have := hno r hr
      simpa using this
    rw [List.findIdx?_eq_none_iff.mpr hall] at hn
    cases hn
  · intro mid rs hall
    unfold Manifest.new
    split
    · rfl
    next idm hm hb =>
      split
      · rfl
      next u hc =>
        rw [List.findIdx?_eq_none_iff.mpr hall]
        rfl

/-- C1 witness: the amended theorem applied to a concrete one-resource list
with no nav property. -/
theorem c1_nav_amended_witness :
    (∀ r ∈ [noNavResA], hasNav r = false) ∧
    exceptIsOk (Manifest.new none [noNavResA]) = false :=
  ⟨by decide, c1_nav_amended.2 none [noNavResA] (by decide)⟩

/-- C2: in a successfully constructed Manifest, every listed resource is
returned by get_resource_by_id on its id and by get_resource_by_href on its
href; and a resource list with two equal ids or two equal hrefs fails
construction. -/
theorem c2_lookup_roundtrip_and_unique :
    (∀ (mid : Option String) (rs : List Resource) (m : Manifest),
      Manifest.new mid rs = .ok m → ∀ r ∈ rs,
      m.get_resource_by_id r.id = some r ∧ m.get_resource_by_href r.href = some r) ∧
    (∀ (mid : Option String) (rs : List Resource) (i j : Nat)
      (hi : i < rs.length) (hj : j < rs.length), i ≠ j →
      ((rs.get ⟨i, hi⟩).id = (rs.get ⟨j, hj⟩).id ∨
        (rs.get ⟨i, hi⟩).href = (rs.get ⟨j, hj⟩).href) →
      exceptIsOk (Manifest.new mid rs) = false) := by
  constructor
  · intro mid rs m h r hr
    obtain ⟨idm, hm, nav, hb, _, _, hmEq⟩ := manifest_new_ok mid rs m h
    subst hmEq
    obtain ⟨⟨k, hk⟩, hget⟩ := List.mem_iff_get.mp hr
    obtain ⟨h1, h2⟩ := buildMaps_get rs 0 [] [] idm hm hb k hk
    rw [hget] at h1 h2
    simp only [Nat.zero_add] at h1 h2
    constructor
    · show (assocLookup r.id idm).bind (fun i => rs.get? i) = some r
      rw [h1]
      show rs.get? k = some r
      rw [List.get?_eq_get hk, hget]
    · show (assocLookup r.href hm).bind (fun i => rs.get? i) = some r
      rw [h2]
      show rs.get? k = some r
      rw [List.get?_eq_get hk, hget]
  · intro mid rs i j hi hj hne hdup
    by_contra hok
    rw [Bool.not_eq_false, exceptIsOk_eq_true_iff] at hok
    obtain ⟨m, hm'⟩ := hok
    obtain ⟨idm, hmv, nav, hb, _, _, _⟩ := manifest_new_ok mid rs m hm'
    obtain ⟨hi1, hi2⟩ := buildMaps_get rs 0 [] [] idm hmv hb i hi
    obtain ⟨hj1, hj2⟩ := buildMaps_get rs 0 [] [] idm hmv hb j hj
    rcases hdup with hid | hhref
    · rw [hid] at hi1
      rw [hj1] at hi1
      have : (0 : Nat) + j = 0 + i := Option.some.inj hi1
      exact hne (by omega)
    · rw [hhref] at hi2
      rw [hj2] at hi2
      have : (0 : Nat) + j = 0 + i := Option.some.inj hi2
      exact hne (by omega)

/-- The manifest produced from the single resource navResA. -/
def c2m : Manifest :=
  { id := none, resources := [navResA], id_to_resource := [("a", 0)]
    href_to_resource := [(urlA, 0)], nav_resource := 0 }

/-- C2 witness: the roundtrip conjunct applied to a concrete one-resource
manifest. -/
theorem c2_lookup_roundtrip_witness :
    Manifest.new none [navResA] = .ok c2m ∧
    (c2m.get_resource_by_id navResA.id = some navResA ∧
      c2m.get_resource_by_href navResA.href = some navResA) :=
  ⟨by decide,
    c2_lookup_roundtrip_and_unique.1 none [navResA] c2m (by decide) navResA (by decide)⟩

/-- C9 counterexample: a manifest whose only resource lists its own id as
fallback is accepted by Manifest::new, refuting the claim that a fallback
must resolve to an entry other than the resource itself. -/
theorem c9_self_fallback_succeeds :
    exceptIsOk (Manifest.new none [selfFallbackRes]) = true ∧
    selfFallbackRes.fallback = some selfFallbackRes.id := by
  decide

/-- C9 (amended): in a successfully constructed Manifest every present
fallback id resolves to some manifest entry (possibly the referencing
resource itself), and construction fails when some fallback references an
id with no matching entry. -/
theorem c9_fallback_amended :
    (∀ (mid : Option String) (rs : List Resource) (m : Manifest),
      Manifest.new mid rs = .ok m → ∀ r ∈ rs, ∀ f, r.fallback = some f →
      ∃ q, m.get_resource_by_id f = some q ∧ q ∈ rs) ∧
    (∀ (mid : Option String) (rs : List Resource),
      (∃ r ∈ rs, ∃ f, r.fallback = some f ∧ ∀ q ∈ rs, q.id ≠ f) →
      exceptIsOk (Manifest.new mid rs) = false) := by
  constructor
  · intro mid rs m h r hr f hf
    obtain ⟨idm, hm, nav, hb, hc, _, hmEq⟩ := manifest_new_ok mid rs m h
    subst hmEq
    have hlk := checkFallbacks_lookup idm rs hc r hr f hf
    obtain ⟨v, hv⟩ := Option.isSome_iff_exists.mp hlk
    obtain ⟨memId, _⟩ := buildMaps_mem rs 0 [] [] idm hm hb
    rcases memId f v hv with hbase | ⟨k, hk, hv0, hkey⟩
    · simp [assocLookup] at hbase
    · refine ⟨rs.get ⟨k, hk⟩, ?_, List.get_mem rs k hk⟩
      show (assocLookup f idm).bind (fun i => rs.get? i) = some (rs.get ⟨k, hk⟩)
      rw [hv]
      have hvk : k = v := by omega
      subst hvk
      show rs.get? k = some (rs.get ⟨k, hk⟩)
      rw [List.get?_eq_get hk]
  · intro mid rs hbad
    obtain ⟨r, hr, f, hf, hnone⟩ := hbad
    by_contra hok
    rw [Bool.not_eq_false, exceptIsOk_eq_true_iff] at hok
    obtain ⟨m, hm'⟩ := hok
    obtain ⟨idm, hmv, nav, hb, hc, _, _⟩ := manifest_new_ok mid rs m hm'
    have hlk := checkFallbacks_lookup idm rs hc r hr f hf
    obtain ⟨v, hv⟩ := Option.isSome_iff_exists.mp hlk
    obtain ⟨memId, _⟩ := buildMaps_mem rs 0 [] [] idm hmv hb
    rcases memId f v hv with hbase | ⟨k, hk, hv0, hkey⟩
    · simp [assocLookup] at hbase
    · exact hnone (rs.get ⟨k, hk⟩) (List.get_mem rs k hk) hkey

/-- The manifest produced from the single self-fallback resource. -/
def c9m : Manifest :=
  { id := none, resources := [selfFallbackRes], id_to_resource := [("a", 0)]
    href_to_resource := [(urlA, 0)], nav_resource := 0 }

/-- C9 witness: the amended resolution conjunct applied to the concrete
self-fallback manifest. -/
theorem c9_fallback_amended_witness :
    Manifest.new none [selfFallbackRes] = .ok c9m ∧
    ∃ q, c9m.get_resource_by_id "a" = some q ∧ q ∈ [selfFallbackRes] :=
  ⟨by decide,
    c9_fallback_amended.1 none [selfFallbackRes] c9m (by decide) selfFallbackRes
      (by decide) "a" (by decide)⟩

/-- Lookup after a map-entry update: the entry for the tag gains the
element, every other entry is unchanged. -/
theorem assocLookup_updateEntry (m : List (WithNamespace × List MetadataElement))
    (e : MetadataElement) (key : WithNamespace) :
    assocLookup key (updateEntry m e) =
      if key = e.tag_name then (assocLookup key m).map (fun v => v ++ [e])
      else assocLookup key m := by
  induction m with
  | nil =>
    by_cases h3 : key = e.tag_name <;> simp [assocLookup, updateEntry, h3]
  | cons kv rest ih =>
    obtain ⟨a, b⟩ := kv
    unfold updateEntry
    by_cases h1 : a = e.tag_name
    · subst h1
      rw [if_pos rfl]
      by_cases h2 : e.tag_name = key
      · simp [assocLookup, h2]
      · have h2s : ¬key = e.tag_name := fun hc => h2 hc.symm
        simp [assocLookup, h2, h2s]
    · rw [if_neg h1]
      by_cases h2 : a = key
      · have h3 : ¬key = e.tag_name := fun hc => h1 (h2.trans hc)
        simp [assocLookup, h2, h3]
      · simp [assocLookup, h2, ih]

/-- Appending a binding at the end is invisible for keys already bound. -/
theorem assocLookup_append_of_some (m : List (WithNamespace × List MetadataElement))
    (x : WithNamespace × List MetadataElement) (key : WithNamespace)
    (v : List MetadataElement) (h : assocLookup key m = some v) :
    assocLookup key (m ++ [x]) = some v := by
  induction m with
  | nil => simp [assocLookup] at h
  | cons kv rest ih =>
    obtain ⟨a, b⟩ := kv
    by_cases h2 : a = key
    · simp_all [assocLookup]
    · simp only [assocLookup, if_neg h2] at h
      simpa [assocLookup, h2] using ih h

/-- Appending a binding at the end is found for keys not already bound. -/
theorem assocLookup_append_of_none (m : List (WithNamespace × List MetadataElement))
    (k0 : WithNamespace) (v0 : List MetadataElement) (key : WithNamespace)
    (h : assocLookup key m = none) :
    assocLookup key (m ++ [(k0, v0)]) = if k0 = key then some v0 else none := by
  induction m with
  | nil => simp [assocLookup]
  | cons kv rest ih =>
    obtain ⟨a, b⟩ := kv
    by_cases h2 : a = key
    · simp [assocLookup, h2] at h
    · simp only [assocLookup, if_neg h2] at h
      simpa [assocLookup, h2] using ih h

/-- Characterization of one grouping step: the entry for the element's tag
name gains the element (created as a singleton when absent), all other
entries are unchanged. -/
theorem assocLookup_groupInsert (m : List (WithNamespace × List MetadataElement))
    (e : MetadataElement) (key : WithNamespace) :
    assocLookup key (groupInsert m e) =
      if key = e.tag_name then some ((assocLookup key m).getD [] ++ [e])
      else assocLookup key m := by
  unfold groupInsert
  by_cases hp : (assocLookup e.tag_name m).isSome = true
  · rw [if_pos hp, assocLookup_updateEntry]
    by_cases h3 : key = e.tag_name
    · rw [if_pos h3, if_pos h3, h3]
      obtain ⟨v, hv⟩ := Option.isSome_iff_exists.mp hp
      rw [hv]
      rfl
    · rw [if_neg h3, if_neg h3]
  · rw [if_neg hp]
    by_cases h3 : key = e.tag_name
    · have hnone : assocLookup key m = none := by
        rw [h3]
        cases hx : assocLookup e.tag_name m with
        | none => rfl
        | some v => rw [hx] at hp; simp at hp
      rw [assocLookup_append_of_none m e.tag_name [e] key hnone, if_pos h3.symm,
        if_pos h3, hnone]
      rfl
    · rw [if_neg h3]
      cases hx : assocLookup key m with
      | some v => exact assocLookup_append_of_some m _ key v hx
      | none =>
        rw [assocLookup_append_of_none m e.tag_name [e] key hx,
          if_neg (fun hc => h3 hc.symm)]

/-- A key is present in the grouped map exactly when it was present in the
accumulator or some grouped element bears it as tag name. -/
theorem groupElems_lookup_aux (elems : List MetadataElement)
    (init : List (WithNamespace × List MetadataElement)) (key : WithNamespace) :
    (assocLookup key (elems.foldl groupInsert init)).isSome = true ↔
      ((assocLookup key init).isSome = true ∨ ∃ e ∈ elems, e.tag_name = key) := by
  induction elems generalizing init with
  | nil => simp
  | cons e rest ih =>
    rw [List.foldl_cons, ih]
    have hstep : (assocLookup key (groupInsert init e)).isSome = true ↔
        ((assocLookup key init).isSome = true ∨ e.tag_name = key) := by
      rw [assocLookup_groupInsert]
      by_cases h3 : key = e.tag_name
      · simp [h3]
      · have : e.tag_name ≠ key := fun hc => h3 hc.symm
        simp [h3, this]
    rw [hstep]
    constructor
    · rintro ((hi | he) | ⟨q, hq, hqt⟩)
      · exact Or.inl hi
      · exact Or.inr ⟨e, by simp, he⟩
      · exact Or.inr ⟨q, by simp [hq], hqt⟩
    · rintro (hi | ⟨q, hq, hqt⟩)
      · exact Or.inl (Or.inl hi)
      · rcases List.mem_cons.mp hq with he | hrest
        · subst he; exact Or.inl (Or.inr hqt)
        · exact Or.inr ⟨q, hrest, hqt⟩

/-- Grouping never produces an empty entry. -/
theorem groupElems_values_ne_nil (elems : List MetadataElement)
    (init : List (WithNamespace × List MetadataElement))
    (hinit : ∀ k l, assocLookup k init = some l → l ≠ []) :
    ∀ k l, assocLookup k (elems.foldl groupInsert init) = some l → l ≠ [] := by
  induction elems generalizing init with
  | nil => exact hinit
  | cons e rest ih =>
    rw [List.foldl_cons]
    apply ih
    intro k l hl
    rw [assocLookup_groupInsert] at hl
    by_cases h3 : k = e.tag_name
    · rw [if_pos h3] at hl
      cases hl
      simp
    · rw [if_neg h3] at hl
      exact hinit k l hl

/-- A passing element check means the tag is a key of the grouped map. -/
theorem checkElem_isSome (m : List (WithNamespace × List MetadataElement))
    (tag : WithNamespace) (h : checkElem m tag = .ok ()) :
    (assocLookup tag m).isSome = true := by
  unfold checkElem at h
  split at h
  · cases h
  next l hl => rw [hl]; rfl

/-- If some element bears the tag name, the element check passes. -/
theorem checkElem_of_mem (elems : List MetadataElement) (tag : WithNamespace)
    (he : ∃ e ∈ elems, e.tag_name = tag) :
    checkElem (groupElems elems) tag = .ok () := by
  have hs : (assocLookup tag (groupElems elems)).isSome = true :=
    (groupElems_lookup_aux elems [] tag).mpr (Or.inr he)
  obtain ⟨l, hl⟩ := Option.isSome_iff_exists.mp hs
  have hne : l ≠ [] :=
    groupElems_values_ne_nil elems [] (fun k l0 h0 => by simp [assocLookup] at h0) tag l hl
  unfold checkElem
  rw [hl]
  simp [List.isEmpty_iff, hne]

/-- Characterization of a successful Metadata::new: the three Dublin-Core
checks passed, a dcterms:modified meta was found first, and its value parsed
as RFC3339. -/
theorem metadata_new_ok (elems : List MetadataElement) (metas : List Meta)
    (links : List Link) (md : Metadata)
    (h : Metadata.new elems metas links = .ok md) :
    checkElem (groupElems elems) DC_TITLE = .ok () ∧
    checkElem (groupElems elems) DC_LANGUAGE = .ok () ∧
    checkElem (groupElems elems) DC_IDENTIFIER = .ok () ∧
    ∃ lm, metas.find? (fun mt => decide (mt.property = DCTERMS_MODIFIED)) = some lm ∧
      ∃ ts, parse_from_rfc3339 lm.value = some ts := by
  unfold Metadata.new at h
  split at h
  next e h1 => cases h
  next u1 h1 =>
    split at h
    next e h2 => cases h
    next u2 h2 =>
      split at h
      next e h3 => cases h
      next u3 h3 =>
        split at h
        next h4 => cases h
        next lm h4 =>
          split at h
          next h5 => cases h
          next ts h5 =>
            cases u1; cases u2; cases u3
            exact ⟨h1, h2, h3, lm, h4, ts, h5⟩

/-- A bare dc:title metadata element. -/
def titleElem : MetadataElement :=
  { id := none, lang := none, dir := none, tag_name := DC_TITLE }

/-- A bare dc:language metadata element. -/
def langElem : MetadataElement :=
  { id := none, lang := none, dir := none, tag_name := DC_LANGUAGE }

/-- A bare dc:identifier metadata element. -/
def identElem : MetadataElement :=
  { id := none, lang := none, dir := none, tag_name := DC_IDENTIFIER }

/-- A meta element asserting dcterms:modified with the given value. -/
def modifiedMeta (v : String) : Meta :=
  { id := none, lang := none, dir := none, property := DCTERMS_MODIFIED
    refines := none, scheme := none, value := v }

/-- C3 counterexample: a meta list with two dcterms:modified entries (both
with RFC3339 values) is accepted by Metadata::new — the check uses find, so
construction does not require exactly one such meta, refuting the claim. -/
theorem c3_two_modified_succeeds :
    exceptIsOk (Metadata.new [titleElem, langElem, identElem]
      [modifiedMeta "2024-01-01T00:00:00Z", modifiedMeta "2025-01-01T00:00:00Z"] []) = true ∧
    List.countP (fun mt => decide (mt.property = DCTERMS_MODIFIED))
      [modifiedMeta "2024-01-01T00:00:00Z", modifiedMeta "2025-01-01T00:00:00Z"] = 2 := by
  decide

/-- C3 (amended): Metadata construction succeeds only when the element set
contains a dc:title, a dc:language and a dc:identifier and the meta list
contains at least one dcterms:modified meta whose first occurrence has an
RFC3339 value; with the element checks satisfied, a meta list with no
dcterms:modified entry fails with the missing-last-modified error, and a
first dcterms:modified meta with a non-RFC3339 value fails with the date
parse error. -/
theorem c3_metadata_amended :
    (∀ (elems : List MetadataElement) (metas : List Meta) (links : List Link)
      (md : Metadata), Metadata.new elems metas links = .ok md →
      (∃ e ∈ elems, e.tag_name = DC_TITLE) ∧
      (∃ e ∈ elems, e.tag_name = DC_LANGUAGE) ∧
      (∃ e ∈ elems, e.tag_name = DC_IDENTIFIER) ∧
      ∃ lm, metas.find? (fun mt => decide (mt.property = DCTERMS_MODIFIED)) = some lm ∧
        (parse_from_rfc3339 lm.value).isSome = true) ∧
    (∀ (elems : List MetadataElement) (metas : List Meta) (links : List Link),
      (∀ mt ∈ metas, mt.property ≠ DCTERMS_MODIFIED) →
      (∃ e ∈ elems, e.tag_name = DC_TITLE) →
      (∃ e ∈ elems, e.tag_name = DC_LANGUAGE) →
      (∃ e ∈ elems, e.tag_name = DC_IDENTIFIER) →
      Metadata.new elems metas links =
        .error (.MissingLastModifiedError "dcterms:modified")) ∧
    (∀ (elems : List MetadataElement) (metas : List Meta) (links : List Link)
      (lm : Meta),
      metas.find? (fun mt => decide (mt.property = DCTERMS_MODIFIED)) = some lm →
      parse_from_rfc3339 lm.value = none →
      (∃ e ∈ elems, e.tag_name = DC_TITLE) →
      (∃ e ∈ elems, e.tag_name = DC_LANGUAGE) →
      (∃ e ∈ elems, e.tag_name = DC_IDENTIFIER) →
      Metadata.new elems metas links = .error .DateParseError) := by
  refine ⟨?_, ?_, ?_⟩
  · intro elems metas links md h
    obtain ⟨h1, h2, h3, lm, h4, ts, h5⟩ := metadata_new_ok elems metas links md h
    refine ⟨?_, ?_, ?_, lm, h4, by rw [h5]; rfl⟩
    · rcases (groupElems_lookup_aux elems [] DC_TITLE).mp (checkElem_isSome _ _ h1) with
        hbase | he
      · simp [assocLookup] at hbase
      · exact he
    · rcases (groupElems_lookup_aux elems [] DC_LANGUAGE).mp (checkElem_isSome _ _ h2) with
        hbase | he
      · simp [assocLookup] at hbase
      · exact he
    · rcases (groupElems_lookup_aux elems [] DC_IDENTIFIER).mp (checkElem_isSome _ _ h3) with
        hbase | he
      · simp [assocLookup] at hbase
      · exact he
  · intro elems metas links hnone ht hl hi
    have hfind : metas.find? (fun mt => decide (mt.property = DCTERMS_MODIFIED)) = none :=
      List.find?_eq_none.mpr (fun mt hmt => by simp [hnone mt hmt])
    unfold Metadata.new
    rw [checkElem_of_mem elems DC_TITLE ht, checkElem_of_mem elems DC_LANGUAGE hl,
      checkElem_of_mem elems DC_IDENTIFIER hi, hfind]
  · intro elems metas links lm hfind hparse ht hl hi
    unfold Metadata.new
    rw [checkElem_of_mem elems DC_TITLE ht, checkElem_of_mem elems DC_LANGUAGE hl,
      checkElem_of_mem elems DC_IDENTIFIER hi, hfind]
    simp [hparse]

/-- C3 witness: the missing-modified conjunct applied to concrete elements
with an empty meta list. -/
theorem c3_metadata_amended_witness :
    Metadata.new [titleElem, langElem, identElem] [] [] =
      .error (.MissingLastModifiedError "dcterms:modified") :=
  c3_metadata_amended.2.1 [titleElem, langElem, identElem] [] []
    (by decide) (by decide) (by decide) (by decide)

/-- C4: resolving the qualified property string dcterms:modified through a
Prefix Scope Stack holding only the reserved prefixes yields the pair of
the dcterms namespace URI and local name modified; resolving foo:bar, whose
prefix foo no scope defines, fails with a NamespaceError naming foo. -/
theorem c4_resolution :
    Property.from_str "dcterms:modified" [reservedPfxs] =
      .ok { ns := "http://purl.org/dc/terms/", reference := "modified" } ∧
    Property.from_str "foo:bar" [reservedPfxs] =
      .error (.NamespaceError (some "foo")) := by
  decide

/-- Statement helper naming the Rootfile a well-formed rootfile element
denotes (attribute defaults are irrelevant under the well-formedness
hypotheses). -/
def rootfileOfElem (e : Element) : Rootfile :=
  { full_path := (epubUrlOfFullPath ((e.attr "full-path").getD "")).getD
      { scheme := "epub", segments := none, query := none, fragment := none }
    media_type := (e.attr "media-type").getD "" }

/-- The epub URL model never fails. -/
theorem epubUrlOfFullPath_some (s : String) : ∃ u, epubUrlOfFullPath s = some u :=
  ⟨_, rfl⟩

/-- A rootfile element with a full-path attribute and the OEBPS media type
converts to its denoted Rootfile. -/
theorem parseRootfileElem_ok (e : Element) (p : String)
    (hfp : e.attr "full-path" = some p) (hmt : e.attr "media-type" = some OEBPS) :
    parseRootfileElem e = .ok (rootfileOfElem e) := by
  obtain ⟨u, hu⟩ := epubUrlOfFullPath_some p
  simp [parseRootfileElem, rootfileOfElem, hfp, hmt, hu]

/-- A rootfile element with a full-path attribute and a non-OEBPS media
type fails naming that media type. -/
theorem parseRootfileElem_badmt (e : Element) (p mt : String)
    (hfp : e.attr "full-path" = some p) (hmt : e.attr "media-type" = some mt)
    (hne : mt ≠ OEBPS) :
    parseRootfileElem e = .error (.InvalidMediaType mt) := by
  obtain ⟨u, hu⟩ := epubUrlOfFullPath_some p
  simp [parseRootfileElem, hfp, hmt, hu, hne]

/-- Fail-fast map succeeds pointwise on a list where the function succeeds
pointwise. -/
theorem mapExcept_ok_map {α β ε : Type} (f : α → Except ε β) (g : α → β)
    (l : List α) (h : ∀ a ∈ l, f a = .ok (g a)) :
    mapExcept f l = .ok (l.map g) := by
  induction l with
  | nil => rfl
  | cons a rest ih =>
    unfold mapExcept
    rw [h a (by simp), ih (fun x hx => h x (by simp [hx]))]
    rfl

/-- Fail-fast map hits the first failing entry after a prefix of successes. -/
theorem mapExcept_error_append {α β ε : Type} (f : α → Except ε β) (g : α → β)
    (pre : List α) (bad : α) (rest : List α) (e : ε)
    (hpre : ∀ a ∈ pre, f a = .ok (g a)) (hbad : f bad = .error e) :
    mapExcept f (pre ++ bad :: rest) = .error e := by
  induction pre with
  | nil =>
    rw [List.nil_append]
    unfold mapExcept
    rw [hbad]
  | cons a pres ih =>
    rw [List.cons_append]
    unfold mapExcept
    rw [hpre a (by simp), ih (fun x hx => hpre x (by simp [hx]))]

/-- C5: a container document whose rootfiles element holds well-formed
rootfile entries parses to exactly those entries, converted in document
order; and when the entries up to the first offender are well formed but
that offender carries a non-OEBPS media type, parsing fails with an error
naming that media-type value. -/
theorem c5_container_rootfiles :
    (∀ (root rfs : Element),
      root.children.find? (fun n => decide (n.name = "rootfiles")) = some rfs →
      (∀ e ∈ rfs.children.filter (fun n => decide (n.name = "rootfile")),
        (∃ p, e.attr "full-path" = some p) ∧ e.attr "media-type" = some OEBPS) →
      parse_container root =
        .ok { rootfiles := List.map rootfileOfElem (rfs.children.filter (fun n => decide (n.name = "rootfile"))) }) ∧
    (∀ (root rfs : Element) (pre rest : List Element) (bad : Element) (mt : String),
      root.children.find? (fun n => decide (n.name = "rootfiles")) = some rfs →
      rfs.children.filter (fun n => decide (n.name = "rootfile")) = pre ++ bad :: rest →
      (∀ e ∈ pre, (∃ p, e.attr "full-path" = some p) ∧
        e.attr "media-type" = some OEBPS) →
      (∃ p, bad.attr "full-path" = some p) → bad.attr "media-type" = some mt →
      mt ≠ OEBPS →
      parse_container root = .error (.InvalidMediaType mt)) := by
  constructor
  · intro root rfs hfind hwf
    have hmap : mapExcept parseRootfileElem
        (rfs.children.filter (fun n => decide (n.name = "rootfile"))) =
        .ok (List.map rootfileOfElem
          (rfs.children.filter (fun n => decide (n.name = "rootfile")))) := by
      apply mapExcept_ok_map
      intro e he
      obtain ⟨⟨p, hp⟩, hmt⟩ := hwf e he
      exact parseRootfileElem_ok e p hp hmt
    simp [parse_container, hfind, hmap]
  · intro root rfs pre rest bad mt hfind hfilter hpre hbadfp hbadmt hne
    have hmap : mapExcept parseRootfileElem
        (rfs.children.filter (fun n => decide (n.name = "rootfile"))) =
        .error (.InvalidMediaType mt) := by
      rw [hfilter]
      apply mapExcept_error_append parseRootfileElem rootfileOfElem
      · intro e he
        obtain ⟨⟨p, hp⟩, hmtq⟩ := hpre e he
        exact parseRootfileElem_ok e p hp hmtq
      · obtain ⟨p, hp⟩ := hbadfp
        exact parseRootfileElem_badmt bad p mt hp hbadmt hne
    simp [parse_container, hfind, hmap]

/-- A well-formed rootfile element for the witness documents. -/
def rfElem (p : String) : Element :=
  { name := "rootfile", attrs := [("full-path", p), ("media-type", OEBPS)]
    children := [] }

/-- The rootfiles element holding two well-formed entries. -/
def rootfilesElem2 : Element :=
  { name := "rootfiles", attrs := []
    children := [rfElem "OEBPS/a.opf", rfElem "OEBPS/b.opf"] }

/-- A container document with two well-formed rootfile entries. -/
def containerDoc2 : Element :=
  { name := "container", attrs := [], children := [rootfilesElem2] }

/-- C5 witness: the success conjunct applied to a concrete two-entry
container document. -/
theorem c5_container_rootfiles_witness :
    parse_container containerDoc2 =
      .ok { rootfiles := List.map rootfileOfElem [rfElem "OEBPS/a.opf", rfElem "OEBPS/b.opf"] } :=
  c5_container_rootfiles.1 containerDoc2 rootfilesElem2 rfl
    (by
      intro e he
      have hf : rootfilesElem2.children.filter (fun n => decide (n.name = "rootfile")) =
          [rfElem "OEBPS/a.opf", rfElem "OEBPS/b.opf"] := rfl
      rw [hf] at he
      rcases List.mem_cons.mp he with rfl | he
      · exact ⟨⟨"OEBPS/a.opf", rfl⟩, rfl⟩
      rcases List.mem_cons.mp he with rfl | he
      · exact ⟨⟨"OEBPS/b.opf", rfl⟩, rfl⟩
      cases he)

/-- The container document with a present but empty rootfiles element. -/
def emptyRootfilesDoc : Element :=
  { name := "container", attrs := []
    children := [{ name := "rootfiles", attrs := [], children := [] }] }

/-- A container document with no rootfiles element at all. -/
def noRootfilesDoc : Element :=
  { name := "container", attrs := [], children := [] }

/-- C6: evaluation at the failing input — a present but empty rootfiles
element parses successfully to an empty rootfile list (the claim and the
spec say it must fail), while an absent rootfiles element does fail. -/
theorem c6_empty_rootfiles_parses_ok :
    parse_container emptyRootfilesDoc = .ok { rootfiles := [] } ∧
    parse_container noRootfilesDoc = .error .MissingRootfiles := by
  decide

/-- The logical root URL epub:/ of the eager stores. -/
def epubRootUrl : Url :=
  { scheme := "epub", segments := some [""], query := none, fragment := none }

/-- The URL epub:/META-INF/container.xml. -/
def containerUrl : Url :=
  { scheme := "epub", segments := some ["META-INF", "container.xml"]
    query := none, fragment := none }

/-- A store holding only a container document with an empty rootfiles
element. -/
def c10Store : List (Url × Element) :=
  [(containerUrl, emptyRootfilesDoc)]

/-- C10: evaluation at the failing input — the container phase of
parse_book succeeds with an empty rootfile list, so container.rootfiles[0]
is out of bounds and the Rust code panics there, contradicting the claim
that the subscript is always in bounds. -/
theorem c10_container_ok_but_rootfiles_empty :
    parseBookBaseUrl c10Store epubRootUrl = .ok none := by
  decide

/-- The RemoteEpub state immediately after a failed ZIP fetch. -/
def failedState : RemoteEpubState :=
  { has_fetched_zip := false, fetch_zip_error := true, files := [] }

/-- A RemoteEpub state whose one-time fetch succeeded with the single file
epub:/a.xhtml. -/
def fetchedStateA : RemoteEpubState :=
  { has_fetched_zip := true, fetch_zip_error := false, files := [(urlA, [1])] }

/-- A local store holding only epub:/a.xhtml. -/
def localStoreA : LocalFiles :=
  { files := [(urlA, [1])], root_url := epubRootUrl }

/-- C7 counterexample: on the remote-archive store the fragment is not
ignored — after a successful fetch, looking up epub:/a.xhtml with a
fragment misses the entry that the fragmentless URL finds, refuting the
claim for every store variant. -/
theorem c7_remote_fragment_not_ignored :
    ¬ ((RemoteEpub.get none fetchedStateA (urlA.setFrag (some "frag"))).1 =
       (RemoteEpub.get none fetchedStateA (urlA.setFrag none)).1) := by
  decide

/-- C7 (amended): the archive-backed and directory-backed stores (eager and
lazy) ignore the URL's fragment on lookup for hierarchical URLs, while the
remote stores look the URL up verbatim: the remote-archive store serves a
fetched state by exact-URL lookup, and the remote HTTP store answers from
its cache by exact-URL lookup whenever it cannot insert (hit, or failed
GET). -/
theorem c7_fragment_amended :
    (∀ (fs : LocalFiles) (u : Url) (f : String), u.segments.isSome = true →
      fs.get (u.setFrag (some f)) = fs.get (u.setFrag none)) ∧
    (∀ (fs : LazyLocalFiles) (u : Url) (f : String), u.segments.isSome = true →
      fs.get (u.setFrag (some f)) = fs.get (u.setFrag none)) ∧
    (∀ (zipFetch : Option (List (Url × Bytes))) (s : RemoteEpubState) (u : Url),
      s.has_fetched_zip = true →
      (RemoteEpub.get zipFetch s u).1 = assocLookup u s.files) ∧
    (∀ (net : Url → Option Bytes) (s : RemoteFiles) (u : Url), net u = none →
      (RemoteFiles.get net s u).1 = assocLookup u s.cache) := by
  refine ⟨?_, ?_, ?_, ?_⟩
  · intro fs u f hseg
    obtain ⟨l, hl⟩ := Option.isSome_iff_exists.mp hseg
    simp [LocalFiles.get, Url.setFrag, Url.joinEmpty, hl]
  · intro fs u f hseg
    obtain ⟨l, hl⟩ := Option.isSome_iff_exists.mp hseg
    simp [LazyLocalFiles.get, Url.setFrag, Url.joinEmpty, hl]
  · intro zipFetch s u hfz
    simp [RemoteEpub.get, hfz]
  · intro net s u hnet
    by_cases hc : (assocLookup u s.cache).isSome = true
    · simp [RemoteFiles.get, hc]
    · simp [RemoteFiles.get, hc, hnet]

/-- C7 witness: the local-store conjunct applied to a concrete store and
URL. -/
theorem c7_fragment_amended_witness :
    urlA.segments.isSome = true ∧
    localStoreA.get (urlA.setFrag (some "frag")) = localStoreA.get (urlA.setFrag none) :=
  ⟨by decide, c7_fragment_amended.1 localStoreA urlA "frag" (by decide)⟩

/-- C8: when the one-time ZIP fetch fails, the first get call (on any URL)
returns none, issues exactly one HTTP request and records the permanent
failure flag; from that failed state every subsequent get call, for every
URL and whatever the network would now answer, returns none, issues zero
HTTP requests and leaves the state unchanged. -/
theorem c8_remote_epub_failure_flag :
    (∀ u : Url, RemoteEpub.get none RemoteEpubState.initial u = (none, failedState, 1)) ∧
    (∀ (zipFetch : Option (List (Url × Bytes))) (u : Url),
      RemoteEpub.get zipFetch failedState u = (none, failedState, 0)) := by
  exact ⟨fun u => rfl, fun zipFetch u => rfl⟩
